import Mathlib

set_option maxRecDepth 10000

/-!
Verification development for the MediGenie healthcare chat front-end.

The definitions below are a shallow embedding of the repository's core logic:
the response classifier (`cleanAndParseJson` in the application controller),
the structured-advice segmenter (`parseBotResponse` in ChatMessage.tsx), the
inline text formatter (`FormattedText` in ChatMessage.tsx), and the
submission / option-selection / geolocation control flow of the application
controller.  JavaScript strings are modelled as `String` / `List Char`,
`JSON.parse` as an executable recursive-descent parser producing a `Json`
tree (numbers are kept as lexemes, since no code under verification inspects
numeric values), and the specific regular expressions appearing in the source
as dedicated deterministic scanners implementing exactly their matching
semantics (each regex in the source has disjoint first-sets at every
backtracking point, so maximal/minimal munch scanning is exact).
-/

/-! ## Generic character/list utilities mirroring the JavaScript primitives -/

/-- JavaScript whitespace class `\s` (restricted to the characters that can
actually occur in this application's ASCII-oriented strings, plus NBSP). -/
def isJsWs (c : Char) : Bool :=
  c = ' ' || c = '\t' || c = '\n' || c = '\r' || c = '\x0b' || c = '\x0c' || c = '\xa0'

/-- JavaScript regex `.` without the `s` flag: any char except line terminators. -/
def isDotCh (c : Char) : Bool :=
  !(c = '\n' || c = '\r' || c = '\u2028' || c = '\u2029')

/-- ASCII digit test, JavaScript regex `\d`. -/
def isDigitCh (c : Char) : Bool := '0' ≤ c && c ≤ '9'

/-- `String.prototype.trim`, as a list operation. -/
def jsTrimList (l : List Char) : List Char :=
  ((l.dropWhile isJsWs).reverse.dropWhile isJsWs).reverse

/-- `String.prototype.trim`. -/
def jsTrim (s : String) : String := (jsTrimList s.toList).asString

/-- `needle` is a prefix of `hay`. -/
def listStartsWith : List Char → List Char → Bool
  | [], _ => true
  | n :: ns, hay =>
    match hay with
    | [] => false
    | x :: xs => if x = n then listStartsWith ns xs else false

/-- `needle` occurs as a contiguous sublist of `hay`
(JavaScript `String.prototype.includes`). -/
def listContainsSub (needle : List Char) : List Char → Bool
  | [] => listStartsWith needle []
  | c :: t => listStartsWith needle (c :: t) || listContainsSub needle t

/-- `String.prototype.includes`. -/
def includesSub (needle hay : String) : Bool := listContainsSub needle.toList hay.toList

/-- First index of character `c` (JavaScript `indexOf`, `none` for `-1`). -/
def indexOfChar (c : Char) : List Char → Option Nat
  | [] => none
  | x :: xs => if x = c then some 0 else (indexOfChar c xs).map (· + 1)

/-- Last index of character `c` (JavaScript `lastIndexOf`, `none` for `-1`). -/
def lastIndexOfChar (c : Char) (l : List Char) : Option Nat :=
  (indexOfChar c l.reverse).map (fun i => l.length - 1 - i)

/-- Last index at which `needle` occurs in `hay`
(JavaScript `String.prototype.lastIndexOf`; an empty needle yields
`hay.length`, as in JavaScript). -/
def lastIndexOfSub (needle hay : List Char) : Option Nat :=
  ((List.range (hay.length + 1)).filterMap
    (fun i => if listStartsWith needle (hay.drop i) then some i else none)).getLast?

/-- `String.prototype.toLowerCase` (ASCII, as produced by the model texts). -/
def toLowerJs (s : String) : String := (s.toList.map Char.toLower).asString

/-! ## JSON values and `JSON.parse`

`Json` models the value space of JavaScript `JSON.parse`.  Numbers are kept
as their source lexemes: `cleanAndParseJson` never inspects a numeric value,
only the shape of the tree, so this keeps the embedding exact without
modelling IEEE floats. -/

inductive Json where
  | null
  | bool (b : Bool)
  | num (lexeme : String)
  | str (s : String)
  | arr (elems : List Json)
  | obj (fields : List (String × Json))

/-- JSON whitespace (`ws` in RFC 8259, exactly what `JSON.parse` skips). -/
def isJsonWs (c : Char) : Bool := c = ' ' || c = '\t' || c = '\n' || c = '\r'

/-- Skip JSON whitespace. -/
def skipJWs : List Char → List Char
  | [] => []
  | c :: cs => if isJsonWs c then skipJWs cs else c :: cs

/-- Hex digit value. -/
def hexVal (c : Char) : Option Nat :=
  let n := c.toNat
  if isDigitCh c then some (n - 48)
  else if 97 ≤ n ∧ n ≤ 102 then some (n - 87)
  else if 65 ≤ n ∧ n ≤ 70 then some (n - 55)
  else none

/-- Single-character JSON string escapes. -/
def escChar (c : Char) : Option Char :=
  if c = '"' then some '"'
  else if c = '\\' then some '\\'
  else if c = '/' then some '/'
  else if c = 'b' then some '\x08'
  else if c = 'f' then some '\x0c'
  else if c = 'n' then some '\n'
  else if c = 'r' then some '\r'
  else if c = 't' then some '\t'
  else none

/-- Body of a JSON string literal, after the opening quote: returns the
decoded characters and the remainder after the closing quote.  Unescaped
control characters are rejected, as by `JSON.parse`. -/
def parseStringBody : List Char → Option (List Char × List Char)
  | [] => none
  | '"' :: rest => some ([], rest)
  | '\\' :: 'u' :: h1 :: h2 :: h3 :: h4 :: rest =>
    match hexVal h1, hexVal h2, hexVal h3, hexVal h4 with
    | some a, some b, some c, some d =>
      (parseStringBody rest).map (fun p => (Char.ofNat (((a * 16 + b) * 16 + c) * 16 + d) :: p.1, p.2))
    | _, _, _, _ => none
  | '\\' :: e :: rest =>
    match escChar e with
    | some ec => (parseStringBody rest).map (fun p => (ec :: p.1, p.2))
    | none => none
  | c :: rest =>
    if c.toNat < 32 then none
    else (parseStringBody rest).map (fun p => (c :: p.1, p.2))

/-- Longest digit prefix. -/
def spanDigits (l : List Char) : List Char × List Char := l.span isDigitCh

/-- Fractional part of a JSON number (`.` digits⁺, or nothing). -/
def parseFrac : List Char → Option (List Char × List Char)
  | '.' :: r =>
    match spanDigits r with
    | ([], _) => none
    | (ds, r2) => some ('.' :: ds, r2)
  | r => some ([], r)

/-- Exponent part of a JSON number (`[eE] [+-]? digits⁺`, or nothing). -/
def parseExp : List Char → Option (List Char × List Char)
  | c :: r =>
    if c = 'e' || c = 'E' then
      let sg : List Char × List Char :=
        match r with
        | s :: r2 => if s = '+' || s = '-' then ([s], r2) else ([], s :: r2)
        | [] => ([], [])
      match spanDigits sg.2 with
      | ([], _) => none
      | (ds, r3) => some (c :: sg.1 ++ ds, r3)
    else some ([], c :: r)
  | [] => some ([], [])

/-- JSON number lexeme (`-? int frac? exp?` with no leading zeros). -/
def parseNumberLex (cs : List Char) : Option (List Char × List Char) :=
  let sgn : List Char × List Char :=
    match cs with
    | '-' :: r => (['-'], r)
    | _ => ([], cs)
  match sgn.2 with
  | '0' :: r =>
    match parseFrac r with
    | none => none
    | some (f, r2) =>
      match parseExp r2 with
      | none => none
      | some (e, r3) => some (sgn.1 ++ '0' :: (f ++ e), r3)
  | c :: r =>
    if isDigitCh c && !(c = '0') then
      match spanDigits r with
      | (ds, r1) =>
        match parseFrac r1 with
        | none => none
        | some (f, r2) =>
          match parseExp r2 with
          | none => none
          | some (e, r3) => some (sgn.1 ++ c :: (ds ++ f ++ e), r3)
    else none
  | [] => none

mutual

/-- JSON value parser (fuelled recursive descent; callers pre-skip
whitespace).  Fuel at least the input length always suffices, since every
nesting level consumes at least one character. -/
def parseValue : Nat → List Char → Option (Json × List Char)
  | 0, _ => none
  | Nat.succ fuel, cs =>
    match cs with
    | [] => none
    | c :: rest =>
      if c = '"' then
        (parseStringBody rest).map (fun p => (Json.str p.1.asString, p.2))
      else if c = '{' then
        match skipJWs rest with
        | '}' :: r2 => some (Json.obj [], r2)
        | r1 => (parseMembers fuel r1).map (fun p => (Json.obj p.1, p.2))
      else if c = '[' then
        match skipJWs rest with
        | ']' :: r2 => some (Json.arr [], r2)
        | r1 => (parseElems fuel r1).map (fun p => (Json.arr p.1, p.2))
      else if c = 't' then
        match rest with
        | 'r' :: 'u' :: 'e' :: r => some (Json.bool true, r)
        | _ => none
      else if c = 'f' then
        match rest with
        | 'a' :: 'l' :: 's' :: 'e' :: r => some (Json.bool false, r)
        | _ => none
      else if c = 'n' then
        match rest with
        | 'u' :: 'l' :: 'l' :: r => some (Json.null, r)
        | _ => none
      else
        match parseNumberLex (c :: rest) with
        | some (lex, r) => some (Json.num lex.asString, r)
        | none => none

/-- Comma-separated JSON array elements up to the closing bracket. -/
def parseElems : Nat → List Char → Option (List Json × List Char)
  | 0, _ => none
  | Nat.succ fuel, cs =>
    match parseValue fuel cs with
    | none => none
    | some (v, r) =>
      match skipJWs r with
      | ',' :: r2 => (parseElems fuel (skipJWs r2)).map (fun p => (v :: p.1, p.2))
      | ']' :: r2 => some ([v], r2)
      | _ => none

/-- Comma-separated JSON object members up to the closing brace. -/
def parseMembers : Nat → List Char → Option (List (String × Json) × List Char)
  | 0, _ => none
  | Nat.succ fuel, cs =>
    match cs with
    | '"' :: rest =>
      match parseStringBody rest with
      | none => none
      | some (k, r) =>
        match skipJWs r with
        | ':' :: r2 =>
          match parseValue fuel (skipJWs r2) with
          | none => none
          | some (v, r3) =>
            match skipJWs r3 with
            | ',' :: r4 => (parseMembers fuel (skipJWs r4)).map (fun p => ((k.asString, v) :: p.1, p.2))
            | '}' :: r4 => some ([(k.asString, v)], r4)
            | _ => none
        | _ => none
    | _ => none

end

/-- `JSON.parse` on a whole string: a single value surrounded by optional
whitespace. -/
def parseJsonText (s : String) : Option Json :=
  match parseValue (s.length + 1) (skipJWs s.toList) with
  | some (v, r) => if skipJWs r = [] then some v else none
  | none => none

/-- Property access on a parse result.  `JSON.parse` resolves duplicate keys
by letting the last occurrence win, hence the last-match lookup. -/
def lookupLast (fields : List (String × Json)) (key : String) : Option Json :=
  match fields with
  | [] => none
  | kv :: rest =>
    match lookupLast rest key with
    | some r => some r
    | none => if kv.1 = key then some kv.2 else none

/-! ## The Response Classifier (`cleanAndParseJson` in the controller) -/

/-- Lines 26-33 of the controller: locate the first `\x7b` and the last
`\x7d` and take the inclusive substring, or give up. -/
def extractBraceSubstring (text : String) : Option String :=
  match indexOfChar '{' text.toList, lastIndexOfChar '}' text.toList with
  | some i, some j =>
    if j < i then none
    else some (((text.toList.drop i).take (j + 1 - i)).asString)
  | _, _ => none

/-- The duck-typed shape check on the parse result: a truthy string
`question` (in JavaScript a string is truthy exactly when non-empty) and an
`options` field for which `Array.isArray` holds.  On success, the payload
`(question, options)` of the returned object. -/
def validateShape : Json → Option (String × List Json)
  | Json.obj fields =>
    match lookupLast fields "question", lookupLast fields "options" with
    | some (Json.str q), some (Json.arr opts) => if q = "" then none else some (q, opts)
    | _, _ => none
  | _ => none

/-- `cleanAndParseJson` (controller lines 25-46): extract the brace-to-brace
substring, `JSON.parse` it, validate the shape; every failure mode yields
`none`.  The function is total — parse failures are routing decisions, never
exceptions reaching the caller. -/
def cleanAndParseJson (text : String) : Option (String × List Json) :=
  match extractBraceSubstring text with
  | none => none
  | some sub =>
    match parseJsonText sub with
    | none => none
    | some j => validateShape j

/-- The classification of a completed response text (spec §4.1). -/
inductive Classified where
  | ClarifyingQuestion (question : String) (options : List Json)
  | FreeformAdvice (text : String)

/-- `classify`: the branch on `cleanAndParseJson` in `handleSendMessage`
(controller lines 126-142). -/
def classify (text : String) : Classified :=
  match cleanAndParseJson text with
  | some p => Classified.ClarifyingQuestion p.1 p.2
  | none => Classified.FreeformAdvice text

/-! ## The Structured-Advice Segmenter (`parseBotResponse` in ChatMessage.tsx)

The segmenter is driven by the regex `sectionMarker`, the literal
`\n\s*\d+\.\s+\*\*(.*?):\*\*`.  At every backtracking point of this regex the
alternatives are disjoint (`\s` and `\d` never overlap, `\d` and `.` never
overlap, `\s` and `*` never overlap), and the lazy title group stops at the
first position where `:**` follows; the scanners below implement exactly
those deterministic semantics. -/

/-- The lazy `(.*?):\*\*` tail of the heading regex: the shortest run of
non-line-terminator characters followed by `:**`.  Returns the captured
title and the remainder after the full match. -/
def lazyTitle : List Char → Option (List Char × List Char)
  | ':' :: '*' :: '*' :: rest => some ([], rest)
  | c :: rest =>
    if isDotCh c then (lazyTitle rest).map (fun p => (c :: p.1, p.2)) else none
  | [] => none

/-- The anchored heading regex `^\d+\.\s+\*\*(.*?):\*\*` (used by the
`titleMatch` step, and as the tail of `sectionMarker`).  Returns the captured
title and the remainder after the match. -/
def matchNumberedHeading (cs : List Char) : Option (List Char × List Char) :=
  match spanDigits cs with
  | ([], _) => none
  | (_, r1) =>
    match r1 with
    | '.' :: r2 =>
      match r2.span isJsWs with
      | ([], _) => none
      | (_, r3) =>
        match r3 with
        | '*' :: '*' :: r4 => lazyTitle r4
        | _ => none
    | _ => none

/-- The `\s*` + heading tail of `sectionMarker`, tried right after a `\n`. -/
def tryMarkerTail (cs : List Char) : Option (List Char × List Char) :=
  matchNumberedHeading (cs.span isJsWs).2

/-- First match of `sectionMarker` in the text: returns the characters
before the matching `\n` and the suffix starting at that `\n`.  `none`
exactly when `text.match(sectionMarker)` is `null`. -/
def findMarkerSplit : List Char → Option (List Char × List Char)
  | [] => none
  | c :: cs =>
    if c = '\n' ∧ (tryMarkerTail cs).isSome then some ([], c :: cs)
    else (findMarkerSplit cs).map (fun p => (c :: p.1, p.2))

/-- One attempt of the split separator `\n\s*(?=\d+\.\s+\*\*(.*?):\*\*)` at
the head of the input: on success, the title captured inside the lookahead
and the remainder after the consumed `\n\s*` (the lookahead itself consumes
nothing). -/
def trySepBR (cs : List Char) : Option (String × List Char) :=
  match cs with
  | '\n' :: r =>
    let r2 := (r.span isJsWs).2
    match matchNumberedHeading r2 with
    | some (title, _) => some (title.asString, r2)
    | none => none
  | _ => none

/-- `String.prototype.split` on the global separator regex above.  As in
JavaScript, the capture group of the separator is spliced into the result
between the surrounding pieces. -/
def splitBR : Nat → List Char → List Char → List String
  | 0, acc, cs => [(acc.reverse ++ cs).asString]
  | _ + 1, acc, [] => [acc.reverse.asString]
  | fuel + 1, acc, c :: cs =>
    match trySepBR (c :: cs) with
    | some (title, rest) => acc.reverse.asString :: title :: splitBR fuel [] rest
    | none => splitBR fuel (c :: acc) cs

/-- The per-part step of the segmenter loop: match the anchored heading,
take the captured title and the trimmed remainder as content, and keep the
section only when both are non-empty (JavaScript truthiness of
`title && content`). -/
def sectionFromPart (p : String) : Option (String × String) :=
  match matchNumberedHeading p.toList with
  | some (title, rest) =>
    let t := title.asString
    let c := (jsTrimList rest).asString
    if t ≠ "" ∧ c ≠ "" then some (t, c) else none
  | none => none

/-- Result shape of the segmenter: intro text, titled sections, outro text. -/
structure SegmentResult where
  intro : String
  sections : List (String × String)
  outro : String
deriving Repr, DecidableEq

/-- `parseBotResponse` (ChatMessage.tsx lines 62-104): `none` when no
section marker occurs; otherwise the intro (the lazy prefix before the first
marker, trimmed), the sections from the capture-splicing split, and the
outro recovered by `lastIndexOf` of the reconstructed last section. -/
def parseBotResponse (text : String) : Option SegmentResult :=
  let cs := text.toList
  match findMarkerSplit cs with
  | none => none
  | some (pre, suf) =>
    let intro := (jsTrimList pre).asString
    let parts := splitBR (suf.length + 1) [] suf
    let sections := (parts.filter (fun p => jsTrim p ≠ "")).filterMap sectionFromPart
    let outro :=
      match sections.getLast? with
      | some (t, c) =>
        let lastSectionText := ("**" ++ t ++ ":**" ++ c).toList
        match lastIndexOfSub lastSectionText cs with
        | some idx =>
          let potentialOutro := jsTrimList (cs.drop (idx + lastSectionText.length))
          if potentialOutro ≠ [] ∧ (findMarkerSplit potentialOutro).isNone then
            potentialOutro.asString
          else ""
        | none => ""
      | none => ""
    some { intro := intro, sections := sections, outro := outro }

/-! ## The Inline Text Formatter (`FormattedText` in ChatMessage.tsx)

`FormattedText` splits on the captured alternation
`(\*\*.*?\*\*|\[.*?\]\(.*?\))` — so the separators appear in the part list —
and then classifies every part: parts that start and end with `**` become
bold runs of `part.slice(2, -2)`, parts in which `\[(.*?)\]\((.*?)\)`
matches become links of the first match's captures, and all other parts stay
plain text. -/

/-- The lazy `.*?\*\*` tail of the bold pattern: shortest run of
non-line-terminator characters followed by `**`. -/
def boldScan : List Char → Option (List Char × List Char)
  | '*' :: '*' :: rest => some ([], rest)
  | c :: rest =>
    if isDotCh c then (boldScan rest).map (fun p => (c :: p.1, p.2)) else none
  | [] => none

/-- The lazy `.*?\]\(` tail of the link display: shortest run of
non-line-terminator characters followed by `](`. -/
def linkScanDisplay : List Char → Option (List Char × List Char)
  | ']' :: '(' :: rest => some ([], rest)
  | c :: rest =>
    if isDotCh c then (linkScanDisplay rest).map (fun p => (c :: p.1, p.2)) else none
  | [] => none

/-- The lazy `.*?\)` tail of the link href: shortest run of
non-line-terminator characters followed by `)`. -/
def linkScanHref : List Char → Option (List Char × List Char)
  | ')' :: rest => some ([], rest)
  | c :: rest =>
    if isDotCh c then (linkScanHref rest).map (fun p => (c :: p.1, p.2)) else none
  | [] => none

/-- Anchored match of `\[(.*?)\]\((.*?)\)`: the two captures and the
remainder after the match. -/
def matchLinkAt : List Char → Option (List Char × List Char × List Char)
  | '[' :: rest =>
    match linkScanDisplay rest with
    | some (d, r1) =>
      match linkScanHref r1 with
      | some (h, r2) => some (d, h, r2)
      | none => none
    | none => none
  | _ => none

/-- Anchored match of `\*\*.*?\*\*`: the full matched span and the
remainder. -/
def matchBoldAt : List Char → Option (List Char × List Char)
  | '*' :: '*' :: rest =>
    match boldScan rest with
    | some (cont, r) => some ('*' :: '*' :: (cont ++ ['*', '*']), r)
    | none => none
  | _ => none

/-- One attempt of the split alternation at the head of the input
(bold first, then link, as in the regex), returning the matched span and the
remainder. -/
def trySepFmt (cs : List Char) : Option (List Char × List Char) :=
  match matchBoldAt cs with
  | some r => some r
  | none =>
    match matchLinkAt cs with
    | some (d, h, r) => some ('[' :: (d ++ ']' :: '(' :: (h ++ [')'])), r)
    | none => none

/-- `String.prototype.split` on the captured alternation: pieces and matched
separators interleaved, in order. -/
def splitFmtLoop : Nat → List Char → List Char → List (List Char)
  | 0, acc, cs => [acc.reverse ++ cs]
  | _ + 1, acc, [] => [acc.reverse]
  | fuel + 1, acc, c :: cs =>
    match trySepFmt (c :: cs) with
    | some (sep, rest) => acc.reverse :: sep :: splitFmtLoop fuel [] rest
    | none => splitFmtLoop fuel (c :: acc) cs

/-- The part list `text.split(/(\*\*.*?\*\*|\[.*?\]\(.*?\))/g)`. -/
def splitFmt (cs : List Char) : List (List Char) := splitFmtLoop (cs.length + 1) [] cs

/-- First match of the link regex anywhere in a part
(`part.match(/\[(.*?)\]\((.*?)\)/)`). -/
def searchLink : List Char → Option (List Char × List Char)
  | [] => none
  | c :: cs =>
    match matchLinkAt (c :: cs) with
    | some (d, h, _) => some (d, h)
    | none => searchLink cs

/-- `part.startsWith('**')`. -/
def startsWithStars (p : List Char) : Bool := listStartsWith ['*', '*'] p

/-- `part.endsWith('**')`. -/
def endsWithStars (p : List Char) : Bool := listStartsWith ['*', '*'] p.reverse

/-- `part.slice(2, -2)`. -/
def sliceBold (p : List Char) : List Char := (p.drop 2).take (p.length - 4)

/-- A renderable fragment produced by the formatter. -/
inductive Run where
  | plain (s : String)
  | bold (s : String)
  | link (display href : String)
deriving Repr, DecidableEq

/-- Classification of one split part (the body of `parts.map` in
`FormattedText`). -/
def classifyPart (p : List Char) : Run :=
  if startsWithStars p && endsWithStars p then Run.bold (sliceBold p).asString
  else
    match searchLink p with
    | some (d, h) => Run.link d.asString h.asString
    | none => Run.plain p.asString

/-- `formatInline`: the full run sequence rendered by `FormattedText`. -/
def formatInline (text : String) : List Run := (splitFmt text.toList).map classifyPart

/-- The textual content of a run with its delimiter markers restored. -/
def runRender : Run → String
  | Run.plain s => s
  | Run.bold s => "**" ++ s ++ "**"
  | Run.link d h => "[" ++ d ++ "](" ++ h ++ ")"

/-- Concatenation of the rendered runs. -/
def reconstruct (rs : List Run) : String :=
  rs.foldr (fun r acc => runRender r ++ acc) ""

/-- No position of the text matches the tokenization alternation. -/
def noMarkup : List Char → Bool
  | [] => true
  | c :: cs => (trySepFmt (c :: cs)).isNone && noMarkup cs

/-! ## The Message Store and the Conversation Controller

The controller (`App` in the main module) is event-driven and strictly
sequential: the busy flag admits at most one in-flight request, so each
handler is modelled as a state transformer.  The awaited outcome of the
model collaborator and of the geolocation collaborator are passed in as
explicit parameters, and the observable collaborator interactions of a
handler are collected in `Effects`. -/

/-- Speaker tag of a message. -/
inductive Role where
  | user
  | bot
  | system
deriving Repr, DecidableEq

/-- One turn of the transcript (`Message` in types.ts).  `options` keeps the
raw JSON array elements handed over by `cleanAndParseJson`; `isQuestion`
models the optional boolean flag, absent being falsy. -/
structure Message where
  id : String
  role : Role
  text : String
  imageUrl : Option String := none
  options : Option (List Json) := none
  isQuestion : Bool := false

/-- The controller state: the message store and the two flags. -/
structure AppState where
  messages : List Message
  isLoading : Bool
  isBotTyping : Bool

/-- Observable collaborator interactions of one handler run: the prompts
handed to the model collaborator (in order) and the number of geolocation
requests issued. -/
structure Effects where
  prompts : List String
  geoCalls : Nat
deriving Repr, DecidableEq

/-- No collaborator interaction at all. -/
def noEffects : Effects := { prompts := [], geoCalls := 0 }

/-- The awaited result of one model-collaborator round trip: the full
response text, or a raised failure.  (An empty stream is already turned into
an apology string inside the collaborator, hence arrives as `success`.) -/
inductive Outcome where
  | success (responseText : String)
  | failure

/-- The one-shot result of a geolocation request.  The coordinates are kept
as their stringified forms — the controller only ever interpolates them into
a prompt. -/
inductive GeoOutcome where
  | position (latStr lonStr : String)
  | geoError (message : String)

/-- The greeting appended by `initChat` on success. -/
def initialGreeting : Message :=
  { id := "initial-greeting", role := Role.bot,
    text := "Hello! I\x27m MediGenie, your personal AI health companion. I\x27m here to provide clear, confident health guidance. How can I help you today?" }

/-- The system message appended by `initChat` on initialization failure. -/
def initErrorMessage : Message :=
  { id := "init-error", role := Role.system,
    text := "Failed to initialize the chat service. Please check your API key and refresh the page." }

/-- The visible user turn appended by `handleSendMessage` (the display URL
of an attached image is an opaque token). -/
def userMessage (ts : Nat) (text : String) (hasImage : Bool) : Message :=
  { id := "user-" ++ toString ts, role := Role.user, text := text,
    imageUrl := if hasImage then some ("blob-" ++ toString ts) else none }

/-- The assistant turn built from a completed response text
(`handleSendMessage` lines 126-142): a question turn carrying the extracted
payload when `cleanAndParseJson` succeeds, a plain advice turn otherwise. -/
def botResponseMessage (ts : Nat) (responseText : String) : Message :=
  match cleanAndParseJson responseText with
  | some p =>
    { id := "bot-" ++ toString ts, role := Role.bot, text := p.1,
      options := some p.2, isQuestion := true }
  | none => { id := "bot-" ++ toString ts, role := Role.bot, text := responseText }

/-- The system message appended when the model collaborator fails. -/
def systemErrorMessage (ts : Nat) : Message :=
  { id := "system-" ++ toString ts, role := Role.system,
    text := "Sorry, something went wrong. Please try again." }

/-- The assistant-side turn appended for a given collaborator outcome. -/
def responseMessage (ts : Nat) : Outcome → Message
  | Outcome.success rt => botResponseMessage ts rt
  | Outcome.failure => systemErrorMessage ts

/-- `handleSendMessage` (controller lines 95-161): guarded by the emptiness
check and the busy flag; appends the user turn unless hidden, performs the
collaborator round trip, appends the resulting assistant or system turn, and
releases both flags in the `finally` block. -/
def handleSendMessage (s : AppState) (text : String) (hasImage isHidden : Bool)
    (outcome : Outcome) (ts : Nat) : AppState × Effects :=
  if (jsTrim text = "" ∧ hasImage = false) ∨ s.isLoading = true then (s, noEffects)
  else
    let base := if isHidden then s.messages else s.messages ++ [userMessage ts text hasImage]
    ({ messages := base ++ [responseMessage ts outcome],
       isLoading := false, isBotTyping := false },
     { prompts := [text], geoCalls := 0 })

/-- The synthesized user turn of the facility-lookup flow. -/
def facilityUserMessage (ts : Nat) : Message :=
  { id := "user-" ++ toString ts, role := Role.user, text := "Yes, help me find a facility." }

/-- Identifier of the transient locating placeholder. -/
def locatingId (ts : Nat) : String := "bot-locating-" ++ toString ts

/-- The transient locating placeholder. -/
def locatingMessage (ts : Nat) : Message :=
  { id := locatingId ts, role := Role.bot, text := "Got it. Finding your location..." }

/-- The synchronous prefix of `handleLocationRequest` (lines 169-171): the
synthesized user turn and the locating placeholder are appended before the
geolocation request is issued, and thus before any geolocation result can
arrive. -/
def locationRequestStart (s : AppState) (ts : Nat) : AppState :=
  { s with messages := s.messages ++ [facilityUserMessage ts, locatingMessage ts] }

/-- The hidden prompt synthesized on geolocation success (line 176). -/
def locationPrompt (latStr lonStr : String) : String :=
  "The user has shared their location. Latitude: " ++ latStr ++ ", Longitude: " ++ lonStr ++
  ". Please provide the final advice including nearby medical facilities."

/-- The hidden prompt synthesized on geolocation failure (line 181). -/
def locationErrorPrompt (message : String) : String :=
  "The user tried to share their location, but an error occurred: " ++ message ++
  ". Please provide final advice without location suggestions and mention that location services failed."

/-- The hidden prompt chosen for a geolocation outcome. -/
def geoPrompt : GeoOutcome → String
  | GeoOutcome.position latStr lonStr => locationPrompt latStr lonStr
  | GeoOutcome.geoError message => locationErrorPrompt message

/-- The geolocation callback (lines 174-184): remove the locating
placeholder by identity, then submit the synthesized prompt as hidden. -/
def locationRequestCallback (s : AppState) (ts : Nat) (geo : GeoOutcome)
    (outcome : Outcome) : AppState × Effects :=
  let s2 : AppState := { s with messages := s.messages.filter (fun m => m.id ≠ locatingId ts) }
  handleSendMessage s2 (geoPrompt geo) false true outcome ts

/-- The visible prompt submitted when the browser offers no geolocation. -/
def noGeoText : String :=
  "My browser doesn\x27t support geolocation, so I cannot share my location."

/-- `handleLocationRequest` (lines 163-186): without geolocation support a
visible apology prompt is submitted; otherwise the two fixed turns are
appended, one geolocation request is issued, and its outcome is routed back
through the hidden-prompt submission path. -/
def handleLocationRequest (s : AppState) (geoSupported : Bool) (geo : GeoOutcome)
    (outcome : Outcome) (ts : Nat) : AppState × Effects :=
  if geoSupported = false then handleSendMessage s noGeoText false false outcome ts
  else
    let r := locationRequestCallback (locationRequestStart s ts) ts geo outcome
    (r.1, { r.2 with geoCalls := r.2.geoCalls + 1 })

/-- `[...messages].reverse().find(m => m.role === Role.BOT && m.isQuestion)`. -/
def lastBotQuestion (msgs : List Message) : Option Message :=
  msgs.reverse.find? (fun m => decide (m.role = Role.bot) && m.isQuestion)

/-- `lastMessage?.text.includes("find a nearby medical facility")`. -/
def isLocationQuestion (msgs : List Message) : Bool :=
  match lastBotQuestion msgs with
  | some m => includesSub "find a nearby medical facility" m.text
  | none => false

/-- `handleOptionClick` (lines 188-197): the facility branch requires both
the lower-cased option text to contain the option marker and the latest
question turn to contain the follow-up marker; otherwise the option text is
submitted as an ordinary visible prompt. -/
def handleOptionClick (s : AppState) (optionText : String) (geoSupported : Bool)
    (geo : GeoOutcome) (outcome : Outcome) (ts : Nat) : AppState × Effects :=
  if includesSub "find a facility" (toLowerJs optionText) && isLocationQuestion s.messages then
    handleLocationRequest s geoSupported geo outcome ts
  else
    handleSendMessage s optionText false false outcome ts

/-- An option-button activation as rendered by `ChatMessage`: the button is
disabled (`disabled=\x7bisLoading || !isLastMessage\x7d`) unless its message is
the last of the store and no request is in flight, so a click on a disabled
button leaves everything unchanged. -/
def optionButtonClick (s : AppState) (idx : Nat) (optionText : String) (geoSupported : Bool)
    (geo : GeoOutcome) (outcome : Outcome) (ts : Nat) : AppState × Effects :=
  if s.isLoading = true ∨ idx + 1 ≠ s.messages.length then (s, noEffects)
  else handleOptionClick s optionText geoSupported geo outcome ts

/-- `handleSend` in ChatInput (lines 281-290): forwards to the submission
handler only when something is entered and no request is in flight. -/
def chatInputSend (s : AppState) (text : String) (hasImage : Bool)
    (outcome : Outcome) (ts : Nat) : AppState × Effects :=
  if (jsTrim text ≠ "" ∨ hasImage = true) ∧ s.isLoading = false then
    handleSendMessage s text hasImage false outcome ts
  else (s, noEffects)

/-- The messages ever appended to the store by some operation of the
controller (spec §3, data-model invariant scope). -/
inductive AppendedBy : Message → Prop
  | greeting : AppendedBy initialGreeting
  | initErr : AppendedBy initErrorMessage
  | userTurn (ts : Nat) (text : String) (hasImage : Bool) :
      AppendedBy (userMessage ts text hasImage)
  | botTurn (ts : Nat) (responseText : String) : AppendedBy (botResponseMessage ts responseText)
  | sysErr (ts : Nat) : AppendedBy (systemErrorMessage ts)
  | facilityTurn (ts : Nat) : AppendedBy (facilityUserMessage ts)
  | locatingTurn (ts : Nat) : AppendedBy (locatingMessage ts)

/-- `options` carries a non-empty sequence (the reading of "options
non-empty" in the data-model invariant). -/
def optionsNonempty (m : Message) : Prop := ∃ l, m.options = some l ∧ l ≠ []

/-! ## Claim-side specification predicates and concrete inputs -/

/-- The clarifying-question shape exactly as the specification words it: the
brace-to-brace substring parses as a JSON object whose `question` field is a
non-empty string and whose `options` field is a sequence of strings of
length at least one. -/
def ClaimQuestionShape (text question : String) (options : List Json) : Prop :=
  ∃ sub fields,
    extractBraceSubstring text = some sub ∧
    parseJsonText sub = some (Json.obj fields) ∧
    lookupLast fields "question" = some (Json.str question) ∧ question ≠ "" ∧
    lookupLast fields "options" = some (Json.arr options) ∧ options ≠ [] ∧
    ∀ o ∈ options, ∃ os, o = Json.str os

/-- The shape the code actually validates: a non-empty string `question` and
an `options` field that is any JSON array — its length and element types are
not inspected. -/
def CodeQuestionShape (text question : String) (options : List Json) : Prop :=
  ∃ sub fields,
    extractBraceSubstring text = some sub ∧
    parseJsonText sub = some (Json.obj fields) ∧
    lookupLast fields "question" = some (Json.str question) ∧ question ≠ "" ∧
    lookupLast fields "options" = some (Json.arr options)

/-- A completed response text whose embedded JSON object carries an empty
`options` array. -/
def emptyOptionsText : String := "\x7b\"question\":\"q\",\"options\":[]\x7d"

/-- The response text of the C2 scenario. -/
def c2ScenarioText : String :=
  "1. **Likely Condition:** This could be tension headache.\n2. **What to Do Now:** Rest and hydrate.\n3. **Diet & Lifestyle:** Reduce caffeine.\n4. **When to See a Doctor:** • Fever over 102°F"

/-- The fixed follow-up question of the scripted protocol, as it arrives in
the store after classification. -/
def followUpQuestionMessage : Message :=
  { id := "bot-1", role := Role.bot,
    text := "I hope this initial guidance is helpful. Should I continue to monitor, or would you like me to help you find a nearby medical facility for a professional opinion?",
    options := some [Json.str "I\x27ll follow the advice for now.", Json.str "Help me find a facility."],
    isQuestion := true }

/-- An idle state whose latest (and only) message is the fixed follow-up
question. -/
def followUpState : AppState :=
  { messages := [followUpQuestionMessage], isLoading := false, isBotTyping := false }

/-- A state with a request in flight. -/
def busyState : AppState := { messages := [], isLoading := true, isBotTyping := true }

/-- An idle state with an empty store. -/
def idleEmptyState : AppState := { messages := [], isLoading := false, isBotTyping := false }

/-- A plain advice turn. -/
def adviceMessage : Message :=
  { id := "bot-2", role := Role.bot, text := "1. **Likely Condition:** rest." }

/-- A state in which the follow-up question has been superseded by a later
assistant turn. -/
def staleQuestionState : AppState :=
  { messages := [followUpQuestionMessage, adviceMessage], isLoading := false, isBotTyping := false }

/-! ## Theorems -/

/-- If the code-side shape holds, `cleanAndParseJson` extracts exactly that
payload. -/
theorem cleanAndParseJson_of_shape (text q : String) (opts : List Json)
    (h : CodeQuestionShape text q opts) : cleanAndParseJson text = some (q, opts) := by
  obtain ⟨sub, fields, h1, h2, h3, h4, h5⟩ := h
  simp only [cleanAndParseJson, h1, h2, validateShape, h3, h5, if_neg h4]

/-- Conversely, a successful `cleanAndParseJson` run exhibits the code-side
shape. -/
theorem shape_of_cleanAndParseJson (text : String) (p : String × List Json)
    (hc : cleanAndParseJson text = some p) : CodeQuestionShape text p.1 p.2 := by
  unfold cleanAndParseJson at hc
  cases he : extractBraceSubstring text with
  | none => rw [he] at hc; exact Option.noConfusion hc
  | some sub =>
    rw [he] at hc
    dsimp only [] at hc
    cases hp : parseJsonText sub with
    | none => rw [hp] at hc; exact Option.noConfusion hc
    | some j =>
      rw [hp] at hc
      dsimp only [] at hc
      cases j with
      | obj fields =>
        unfold validateShape at hc
        dsimp only [] at hc
        cases hq : lookupLast fields "question" with
        | none =>
          cases ho : lookupLast fields "options" with
          | none =>
            rw [hq, ho] at hc
            dsimp only [] at hc
            exact Option.noConfusion hc
          | some jo =>
            rw [hq, ho] at hc
            dsimp only [] at hc
            exact Option.noConfusion hc
        | some jq =>
          cases ho : lookupLast fields "options" with
          | none =>
            rw [hq, ho] at hc
            cases jq <;> dsimp only [] at hc <;> exact Option.noConfusion hc
          | some jo =>
            rw [hq, ho] at hc
            cases jq <;> cases jo <;> (try dsimp only [] at hc) <;>
              (try exact Option.noConfusion hc)
            rename_i q opts
            by_cases hq0 : q = ""
            · rw [if_pos hq0] at hc
              exact Option.noConfusion hc
            · rw [if_neg hq0] at hc
              injection hc with h'
              rw [← h']
              exact ⟨sub, fields, he, hp, hq, hq0, ho⟩
      | null => exact Option.noConfusion hc
      | bool b => exact Option.noConfusion hc
      | num l => exact Option.noConfusion hc
      | str s => exact Option.noConfusion hc
      | arr es => exact Option.noConfusion hc

/-- C1, counterexample: on a completed response text whose embedded JSON
object has an empty `options` array — which is not "an ordered sequence of
strings of length >= 1", so the claim demands `FreeformAdvice` — `classify`
nevertheless yields `ClarifyingQuestion` with the empty option list. -/
theorem C1_counterexample :
    classify emptyOptionsText = Classified.ClarifyingQuestion "q" [] ∧
    ¬ ∃ q opts, ClaimQuestionShape emptyOptionsText q opts := by
  refine ⟨rfl, ?_⟩
  rintro ⟨q, opts, sub, fields, h1, h2, _, _, h5, h6, _⟩
  have e1 : extractBraceSubstring emptyOptionsText = some emptyOptionsText := rfl
  rw [e1, Option.some.injEq] at h1
  subst h1
  have e2 : parseJsonText emptyOptionsText =
      some (Json.obj [("question", Json.str "q"), ("options", Json.arr [])]) := rfl
  rw [e2, Option.some.injEq] at h2
  injection h2 with h2'
  subst h2'
  have e3 : lookupLast [("question", Json.str "q"), ("options", Json.arr [])] "options" =
      some (Json.arr []) := rfl
  rw [e3, Option.some.injEq] at h5
  injection h5 with h5'
  exact h6 h5'.symm

/-- C1, amended: for every completed response text in which the substring
spanning the first brace and the last brace parses as a JSON object with a
non-empty string-typed `question` field and an `options` field that is any
JSON array (of any length, with elements of any type), `classify` yields
`ClarifyingQuestion` with exactly that payload; for every other text,
`classify` yields `FreeformAdvice`; and `classify` is a total function, so
it never throws to the caller. -/
theorem C1_amended (text : String) :
    (∀ question options, CodeQuestionShape text question options →
      classify text = Classified.ClarifyingQuestion question options) ∧
    ((¬ ∃ question options, CodeQuestionShape text question options) →
      classify text = Classified.FreeformAdvice text) := by
  constructor
  · intro q opts h
    unfold classify
    rw [cleanAndParseJson_of_shape text q opts h]
  · intro hno
    unfold classify
    cases hc : cleanAndParseJson text with
    | none => rfl
    | some p =>
      exact absurd ⟨p.1, p.2, shape_of_cleanAndParseJson text p hc⟩ hno

/-- Witness for C1: the amended theorem applied to a concrete
clarifying-question response. -/
theorem C1_amended_witness :
    classify "\x7b\"question\":\"how\",\"options\":[\"a\"]\x7d" =
      Classified.ClarifyingQuestion "how" [Json.str "a"] :=
  (C1_amended "\x7b\"question\":\"how\",\"options\":[\"a\"]\x7d").1 "how" [Json.str "a"]
    ⟨"\x7b\"question\":\"how\",\"options\":[\"a\"]\x7d",
     [("question", Json.str "how"), ("options", Json.arr [Json.str "a"])],
     rfl, rfl, rfl, by decide, rfl⟩

/-- C2, counterexample: on the scenario text, `segment` does not return four
sections with an empty intro — the first heading stands at the very start of
the text, and the heading regex requires a preceding newline, so section 1
is absorbed into the intro and only three sections remain. -/
theorem C2_counterexample :
    (parseBotResponse c2ScenarioText).map (fun r => (r.intro, r.sections.length)) =
      some ("1. **Likely Condition:** This could be tension headache.", 3) := by
  decide

/-- C2, amended: on the scenario text, `segment` returns a non-`None` result
whose intro is the whole first sentence `1. **Likely Condition:** This could
be tension headache.`, whose sections are exactly the three titled
`What to Do Now`, `Diet & Lifestyle`, `When to See a Doctor` in that order
with their contents, and whose outro is empty. -/
theorem C2_amended :
    parseBotResponse c2ScenarioText =
      some { intro := "1. **Likely Condition:** This could be tension headache.",
             sections := [("What to Do Now", "Rest and hydrate."),
                          ("Diet & Lifestyle", "Reduce caffeine."),
                          ("When to See a Doctor", "• Fever over 102°F")],
             outro := "" } := by
  decide

/-- C3, counterexample: not every message appended by the controller
satisfies "`options` non-empty iff `isQuestion`" — the assistant question
turn built from a response whose JSON carries an empty `options` array has
`isQuestion = true` and an empty options list. -/
theorem C3_counterexample :
    ¬ ∀ m, AppendedBy m → (optionsNonempty m ↔ m.isQuestion = true) := by
  intro h
  have hb := h (botResponseMessage 0 emptyOptionsText) (AppendedBy.botTurn 0 emptyOptionsText)
  have hq : (botResponseMessage 0 emptyOptionsText).isQuestion = true := rfl
  obtain ⟨l, hl, hne⟩ := hb.mpr hq
  have hopts : (botResponseMessage 0 emptyOptionsText).options = some [] := rfl
  rw [hopts, Option.some.injEq] at hl
  exact hne hl.symm

/-- C3, amended: for every message appended to the store by any operation,
the `options` field is present (an array, possibly empty) if and only if
`isQuestion` is true. -/
theorem C3_amended (m : Message) (h : AppendedBy m) :
    m.options ≠ none ↔ m.isQuestion = true := by
  cases h with
  | greeting => simp [initialGreeting]
  | initErr => simp [initErrorMessage]
  | userTurn ts text hasImage => simp [userMessage]
  | botTurn ts responseText =>
    unfold botResponseMessage
    cases cleanAndParseJson responseText <;> simp
  | sysErr ts => simp [systemErrorMessage]
  | facilityTurn ts => simp [facilityUserMessage]
  | locatingTurn ts => simp [locatingMessage]

/-- Witness for C3: the amended invariant instantiated at the assistant
question turn built from the empty-options response. -/
theorem C3_amended_witness :
    (botResponseMessage 0 emptyOptionsText).options ≠ none ↔
      (botResponseMessage 0 emptyOptionsText).isQuestion = true :=
  C3_amended (botResponseMessage 0 emptyOptionsText) (AppendedBy.botTurn 0 emptyOptionsText)

/-- C5: while a request is in flight (the busy flag is set), a further
submission at any submission entry point — the submission handler itself,
the chat input, or an option button — leaves the message store unchanged and
issues no collaborator call, so at most one outbound model request is in
flight at a time. -/
theorem C5_busy_noop (s : AppState) (text opt : String) (hasImage isHidden geoS : Bool)
    (idx ts : Nat) (geo : GeoOutcome) (outcome : Outcome) (h : s.isLoading = true) :
    handleSendMessage s text hasImage isHidden outcome ts = (s, noEffects) ∧
    chatInputSend s text hasImage outcome ts = (s, noEffects) ∧
    optionButtonClick s idx opt geoS geo outcome ts = (s, noEffects) := by
  refine ⟨?_, ?_, ?_⟩
  · unfold handleSendMessage
    rw [if_pos (Or.inr h)]
  · unfold chatInputSend
    rw [if_neg (by simp [h])]
  · unfold optionButtonClick
    rw [if_pos (Or.inl h)]

/-- Witness for C5: submitting at each entry point of a concrete busy state
is a no-op. -/
theorem C5_busy_noop_witness :
    handleSendMessage busyState "hello" false false (Outcome.success "ok") 1 = (busyState, noEffects) ∧
    chatInputSend busyState "hello" false (Outcome.success "ok") 1 = (busyState, noEffects) ∧
    optionButtonClick busyState 0 "opt" true (GeoOutcome.geoError "e") (Outcome.success "ok") 1 =
      (busyState, noEffects) :=
  C5_busy_noop busyState "hello" "opt" false false true 0 1 (GeoOutcome.geoError "e")
    (Outcome.success "ok") rfl

/-- C6: when a submission proceeds (non-empty input, not busy), every
collaborator failure is caught at the submission boundary and yields exactly
one appended `System`-role message with the fixed apology text, the
assistant-message history (and hence the derived phase) is unchanged, and
the busy flag is released on every exit path — success, failure, or empty
result alike. -/
theorem C6_failure_handling (s : AppState) (text : String) (hasImage isHidden : Bool) (ts : Nat)
    (hsome : ¬(jsTrim text = "" ∧ hasImage = false)) (hbusy : s.isLoading = false) :
    (∀ outcome, (handleSendMessage s text hasImage isHidden outcome ts).1.isLoading = false) ∧
    (handleSendMessage s text hasImage isHidden Outcome.failure ts).1.messages =
      (if isHidden then s.messages else s.messages ++ [userMessage ts text hasImage]) ++
        [systemErrorMessage ts] ∧
    (systemErrorMessage ts).role = Role.system ∧
    (systemErrorMessage ts).text = "Sorry, something went wrong. Please try again." ∧
    ((handleSendMessage s text hasImage isHidden Outcome.failure ts).1.messages.filter
        (fun m => decide (m.role = Role.bot))) =
      s.messages.filter (fun m => decide (m.role = Role.bot)) := by
  have hg : ¬((jsTrim text = "" ∧ hasImage = false) ∨ s.isLoading = true) := by
    simp [hbusy, hsome]
  refine ⟨?_, ?_, rfl, rfl, ?_⟩
  · intro outcome
    unfold handleSendMessage
    rw [if_neg hg]
  · unfold handleSendMessage
    rw [if_neg hg]
    rfl
  · unfold handleSendMessage
    rw [if_neg hg]
    dsimp only []
    cases isHidden with
    | true =>
      simp [List.filter_append, responseMessage, systemErrorMessage]
    | false =>
      simp [List.filter_append, responseMessage, systemErrorMessage, userMessage]

/-- Witness for C6: the failure handling of a concrete submission. -/
theorem C6_failure_handling_witness :
    (∀ outcome, (handleSendMessage idleEmptyState "headache" false false outcome 4).1.isLoading = false) ∧
    (handleSendMessage idleEmptyState "headache" false false Outcome.failure 4).1.messages =
      (if false then idleEmptyState.messages
       else idleEmptyState.messages ++ [userMessage 4 "headache" false]) ++ [systemErrorMessage 4] ∧
    (systemErrorMessage 4).role = Role.system ∧
    (systemErrorMessage 4).text = "Sorry, something went wrong. Please try again." ∧
    ((handleSendMessage idleEmptyState "headache" false false Outcome.failure 4).1.messages.filter
        (fun m => decide (m.role = Role.bot))) =
      idleEmptyState.messages.filter (fun m => decide (m.role = Role.bot)) :=
  C6_failure_handling idleEmptyState "headache" false false 4 (by decide) rfl

/-- C7: option buttons are actionable only on the latest message, so
selecting an option on a question that is no longer the most recent
assistant message — witnessed by any later assistant turn in the store — is
a no-op: the store is unchanged and no collaborator is invoked. -/
theorem C7_stale_option_noop (s : AppState) (i j : Nat) (mj : Message) (opt : String)
    (geoS : Bool) (geo : GeoOutcome) (outcome : Outcome) (ts : Nat)
    (hj : s.messages[j]? = some mj) (_hbot : mj.role = Role.bot) (hij : i < j) :
    optionButtonClick s i opt geoS geo outcome ts = (s, noEffects) := by
  have hlen : j < s.messages.length := by
    by_contra hle
    rw [List.getElem?_eq_none (Nat.le_of_not_lt hle)] at hj
    exact Option.noConfusion hj
  have hne : i + 1 ≠ s.messages.length := by omega
  unfold optionButtonClick
  rw [if_pos (Or.inr hne)]

/-- Witness for C7: clicking an option of the superseded follow-up question
in a concrete two-message store is a no-op. -/
theorem C7_stale_option_noop_witness :
    optionButtonClick staleQuestionState 0 "Help me find a facility." true
      (GeoOutcome.geoError "e") (Outcome.success "ok") 5 = (staleQuestionState, noEffects) :=
  C7_stale_option_noop staleQuestionState 0 1 adviceMessage "Help me find a facility." true
    (GeoOutcome.geoError "e") (Outcome.success "ok") 5 rfl rfl (by decide)

/-- A list starts with itself before any suffix. -/
theorem listStartsWith_append (b t : List Char) : listStartsWith b (b ++ t) = true := by
  induction b with
  | nil => rfl
  | cons c bs ih => simp [listStartsWith, ih]

/-- A prefix occurrence is an occurrence. -/
theorem listContainsSub_of_startsWith (b hay : List Char) (h : listStartsWith b hay = true) :
    listContainsSub b hay = true := by
  cases hay with
  | nil => exact h
  | cons x t =>
    unfold listContainsSub
    simp [h]

/-- A middle segment is always found by the containment scan. -/
theorem listContainsSub_middle (a b c : List Char) :
    listContainsSub b (a ++ (b ++ c)) = true := by
  induction a with
  | nil => exact listContainsSub_of_startsWith _ _ (listStartsWith_append b c)
  | cons x a ih =>
    rw [List.cons_append]
    unfold listContainsSub
    simp [ih]

/-- A non-empty character list yields a non-empty string. -/
theorem asString_ne_empty (l : List Char) (h : l ≠ []) : l.asString ≠ "" := by
  intro he
  apply h
  have h2 := congrArg String.data he
  simpa using h2

/-- Trimming never erases a leading non-whitespace character. -/
theorem jsTrimList_cons_ne (c : Char) (l : List Char) (hc : isJsWs c = false) :
    jsTrimList (c :: l) ≠ [] := by
  unfold jsTrimList
  rw [List.dropWhile_cons]
  rw [hc]
  simp only [Bool.false_eq_true, if_false]
  intro he
  rw [List.reverse_eq_nil_iff] at he
  rw [List.dropWhile_eq_nil_iff] at he
  have hm : c ∈ (c :: l).reverse := by simp
  have := he c hm
  rw [hc] at this
  exact Bool.noConfusion this

/-- A string starting with a non-whitespace character trims non-empty. -/
theorem jsTrim_ne_of_head (t : String) (c : Char) (r : List Char)
    (ht : t.toList = c :: r) (hc : isJsWs c = false) : jsTrim t ≠ "" := by
  unfold jsTrim
  rw [ht]
  exact asString_ne_empty _ (jsTrimList_cons_ne c r hc)

/-- Both synthesized location prompts trim non-empty. -/
theorem jsTrim_geoPrompt_ne (geo : GeoOutcome) : jsTrim (geoPrompt geo) ≠ "" := by
  cases geo with
  | position la lo => exact jsTrim_ne_of_head _ 'T' _ rfl (by decide)
  | geoError m => exact jsTrim_ne_of_head _ 'T' _ rfl (by decide)

/-- The synthesized error prompt contains the error message verbatim. -/
theorem includesSub_geoError (msg : String) :
    includesSub msg (locationErrorPrompt msg) = true := by
  unfold includesSub locationErrorPrompt
  have h1 : ("The user tried to share their location, but an error occurred: " ++ msg ++
      ". Please provide final advice without location suggestions and mention that location services failed.").toList =
      "The user tried to share their location, but an error occurred: ".toList ++
        (msg.toList ++ ". Please provide final advice without location suggestions and mention that location services failed.".toList) := by
    simp [List.append_assoc]
  rw [h1]
  exact listContainsSub_middle _ _ _

/-- Strings with different-length left parts stay different after a common
suffix. -/
theorem string_append_ne_of_length (a b x : String) (h : a.length ≠ b.length) :
    a ++ x ≠ b ++ x := by
  intro he
  apply h
  have h2 := congrArg String.length he
  rw [String.length_append, String.length_append] at h2
  omega

/-- C8, amended: on option selection while idle, if the lower-cased
selected option text contains `find a facility` (a case-insensitive match)
and the most recent question turn contains the marker
`find a nearby medical facility`, the controller runs the geolocation
request path — one geolocation call whose outcome is submitted as the
hidden location prompt, never the option text; otherwise the option text is
submitted exactly as a free-text submission. -/
theorem C8_amended (s : AppState) (opt : String) (geoS : Bool) (geo : GeoOutcome)
    (outcome : Outcome) (ts : Nat) (hbusy : s.isLoading = false) :
    ((includesSub "find a facility" (toLowerJs opt) && isLocationQuestion s.messages) = true →
      handleOptionClick s opt geoS geo outcome ts = handleLocationRequest s geoS geo outcome ts ∧
      (geoS = true →
        (handleOptionClick s opt geoS geo outcome ts).2 = { prompts := [geoPrompt geo], geoCalls := 1 })) ∧
    ((includesSub "find a facility" (toLowerJs opt) && isLocationQuestion s.messages) = false →
      handleOptionClick s opt geoS geo outcome ts = handleSendMessage s opt false false outcome ts ∧
      (jsTrim opt ≠ "" →
        (handleOptionClick s opt geoS geo outcome ts).2 = { prompts := [opt], geoCalls := 0 })) := by
  constructor
  · intro hcond
    have heq : handleOptionClick s opt geoS geo outcome ts = handleLocationRequest s geoS geo outcome ts := by
      unfold handleOptionClick
      rw [if_pos hcond]
    refine ⟨heq, ?_⟩
    intro hgeoS
    rw [heq]
    subst hgeoS
    unfold handleLocationRequest
    rw [if_neg (by simp)]
    unfold locationRequestCallback
    unfold handleSendMessage
    rw [if_neg]
    intro hor
    cases hor with
    | inl hl => exact jsTrim_geoPrompt_ne geo hl.1
    | inr hr =>
      simp only [locationRequestStart, hbusy] at hr
      exact Bool.noConfusion hr
  · intro hcond
    have heq : handleOptionClick s opt geoS geo outcome ts = handleSendMessage s opt false false outcome ts := by
      unfold handleOptionClick
      rw [if_neg (by simp [hcond])]
    refine ⟨heq, ?_⟩
    intro hopt
    rw [heq]
    unfold handleSendMessage
    rw [if_neg]
    intro hor
    cases hor with
    | inl hl => exact hopt hl.1
    | inr hr => rw [hbusy] at hr; exact Bool.noConfusion hr

/-- C8, counterexample: with the fixed follow-up question latest, selecting
the option text `FIND A FACILITY` — which does not contain the lowercase
substring `find a facility`, so the claim demands a plain free-text
submission of the option text — nevertheless invokes the geolocation
collaborator, because the code lower-cases the option text first. -/
theorem C8_counterexample :
    includesSub "find a facility" "FIND A FACILITY" = false ∧
    (handleOptionClick followUpState "FIND A FACILITY" true (GeoOutcome.position "1" "2")
        (Outcome.success "advice") 7).2.geoCalls = 1 ∧
    (handleOptionClick followUpState "FIND A FACILITY" true (GeoOutcome.position "1" "2")
        (Outcome.success "advice") 7).2.prompts ≠ ["FIND A FACILITY"] := by
  refine ⟨rfl, rfl, ?_⟩
  decide

/-- Witness for C8: the facility branch of the amended theorem at the
concrete follow-up state. -/
theorem C8_amended_witness :
    handleOptionClick followUpState "Help me find a facility." true (GeoOutcome.geoError "denied")
        (Outcome.success "adv") 3 =
      handleLocationRequest followUpState true (GeoOutcome.geoError "denied") (Outcome.success "adv") 3 ∧
    (true = true →
      (handleOptionClick followUpState "Help me find a facility." true (GeoOutcome.geoError "denied")
          (Outcome.success "adv") 3).2 =
        { prompts := [geoPrompt (GeoOutcome.geoError "denied")], geoCalls := 1 }) :=
  (C8_amended followUpState "Help me find a facility." true (GeoOutcome.geoError "denied")
    (Outcome.success "adv") 3 rfl).1 (by decide)

/-- The identifier of an assistant response turn, independent of the
classification branch. -/
theorem botResponseMessage_id (ts : Nat) (rt : String) :
    (botResponseMessage ts rt).id = "bot-" ++ toString ts := by
  unfold botResponseMessage
  cases cleanAndParseJson rt <;> rfl

/-- C9: when geolocation fails, the hidden prompt submitted to the model is
the synthesized error prompt — which contains the geolocation error's
message — no visible turn carrying it is appended, and the transient
locating placeholder has been removed from the store before the new
assistant turn appears: the final store is the original messages, the
synthesized facility user turn, and the new assistant turn, with no
locating message present. -/
theorem C9_geo_error_hidden_prompt (s : AppState) (ts : Nat) (errMsg rt : String)
    (hbusy : s.isLoading = false)
    (hfresh : ∀ m ∈ s.messages, m.id ≠ locatingId ts) :
    (handleLocationRequest s true (GeoOutcome.geoError errMsg) (Outcome.success rt) ts).2.prompts =
      [locationErrorPrompt errMsg] ∧
    includesSub errMsg (locationErrorPrompt errMsg) = true ∧
    (handleLocationRequest s true (GeoOutcome.geoError errMsg) (Outcome.success rt) ts).1.messages =
      s.messages ++ [facilityUserMessage ts, botResponseMessage ts rt] ∧
    ∀ m ∈ (handleLocationRequest s true (GeoOutcome.geoError errMsg) (Outcome.success rt) ts).1.messages,
      m.id ≠ locatingId ts := by
  have hfilter : ((locationRequestStart s ts).messages.filter (fun m => decide (m.id ≠ locatingId ts))) =
      s.messages ++ [facilityUserMessage ts] := by
    unfold locationRequestStart
    dsimp only []
    rw [List.filter_append]
    have h1 : s.messages.filter (fun m => decide (m.id ≠ locatingId ts)) = s.messages := by
      rw [List.filter_eq_self]
      intro m hm
      exact decide_eq_true (hfresh m hm)
    have h2 : [facilityUserMessage ts, locatingMessage ts].filter
        (fun m => decide (m.id ≠ locatingId ts)) = [facilityUserMessage ts] := by
      have hids : (facilityUserMessage ts).id ≠ locatingId ts :=
        string_append_ne_of_length "user-" "bot-locating-" (toString ts) (by decide)
      simp [List.filter, locatingMessage, hids]
    rw [h1, h2]
  have hrun : handleLocationRequest s true (GeoOutcome.geoError errMsg) (Outcome.success rt) ts =
      ({ messages := (s.messages ++ [facilityUserMessage ts]) ++ [botResponseMessage ts rt],
         isLoading := false, isBotTyping := false },
       { prompts := [locationErrorPrompt errMsg], geoCalls := 1 }) := by
    unfold handleLocationRequest
    rw [if_neg (by simp)]
    unfold locationRequestCallback
    unfold handleSendMessage
    rw [if_neg]
    · dsimp only []
      rw [hfilter]
      simp [responseMessage, geoPrompt]
    · intro hor
      cases hor with
      | inl hl => exact jsTrim_geoPrompt_ne (GeoOutcome.geoError errMsg) hl.1
      | inr hr =>
        simp only [locationRequestStart, hbusy] at hr
        exact Bool.noConfusion hr
  refine ⟨?_, includesSub_geoError errMsg, ?_, ?_⟩
  · rw [hrun]
  · rw [hrun]
    simp
  · rw [hrun]
    intro m hm
    simp only [] at hm
    rw [List.append_assoc] at hm
    rcases List.mem_append.mp hm with h1 | h2
    · exact hfresh m h1
    · have hm2 : m = facilityUserMessage ts ∨ m = botResponseMessage ts rt := by
        simpa using h2
      rcases hm2 with h3 | h3
      · subst h3
        exact string_append_ne_of_length "user-" "bot-locating-" (toString ts) (by decide)
      · subst h3
        rw [botResponseMessage_id]
        exact string_append_ne_of_length "bot-" "bot-locating-" (toString ts) (by decide)

/-- Witness for C9: the geolocation-failure flow from a concrete idle
state. -/
theorem C9_witness :
    (handleLocationRequest idleEmptyState true (GeoOutcome.geoError "User denied Geolocation")
        (Outcome.success "final advice") 2).2.prompts =
      [locationErrorPrompt "User denied Geolocation"] ∧
    includesSub "User denied Geolocation" (locationErrorPrompt "User denied Geolocation") = true ∧
    (handleLocationRequest idleEmptyState true (GeoOutcome.geoError "User denied Geolocation")
        (Outcome.success "final advice") 2).1.messages =
      idleEmptyState.messages ++ [facilityUserMessage 2, botResponseMessage 2 "final advice"] ∧
    ∀ m ∈ (handleLocationRequest idleEmptyState true (GeoOutcome.geoError "User denied Geolocation")
        (Outcome.success "final advice") 2).1.messages, m.id ≠ locatingId 2 :=
  C9_geo_error_hidden_prompt idleEmptyState 2 "User denied Geolocation" "final advice" rfl
    (by intro m hm; simp [idleEmptyState] at hm)

/-- C10: when the facility branch is taken with geolocation available, the
store first gains the synthesized `User`-role turn with the fixed text
`Yes, help me find a facility.` and the transient placeholder
`Got it. Finding your location...`, appended (in the synchronous prefix,
before any geolocation result arrives) after the unchanged original store;
and the whole interaction is independent of which facility-signalling
option text was selected. -/
theorem C10_facility_fixed_messages (s : AppState) (ts : Nat) (opt1 opt2 : String)
    (geoS : Bool) (geo : GeoOutcome) (outcome : Outcome)
    (h1 : (includesSub "find a facility" (toLowerJs opt1) && isLocationQuestion s.messages) = true)
    (h2 : (includesSub "find a facility" (toLowerJs opt2) && isLocationQuestion s.messages) = true) :
    (locationRequestStart s ts).messages.length = s.messages.length + 2 ∧
    (locationRequestStart s ts).messages.take s.messages.length = s.messages ∧
    (locationRequestStart s ts).messages[s.messages.length]? = some (facilityUserMessage ts) ∧
    (facilityUserMessage ts).role = Role.user ∧
    (facilityUserMessage ts).text = "Yes, help me find a facility." ∧
    (locationRequestStart s ts).messages[s.messages.length + 1]? = some (locatingMessage ts) ∧
    (locatingMessage ts).role = Role.bot ∧
    (locatingMessage ts).text = "Got it. Finding your location..." ∧
    handleOptionClick s opt1 geoS geo outcome ts = handleOptionClick s opt2 geoS geo outcome ts := by
  refine ⟨?_, ?_, ?_, rfl, rfl, ?_, rfl, rfl, ?_⟩
  · simp [locationRequestStart]
  · simp [locationRequestStart]
  · unfold locationRequestStart
    dsimp only []
    rw [List.getElem?_append_right (Nat.le_refl _)]
    simp
  · unfold locationRequestStart
    dsimp only []
    rw [List.getElem?_append_right (Nat.le_add_right _ _)]
    simp
  · unfold handleOptionClick
    rw [if_pos h1, if_pos h2]

/-- Witness for C10: the fixed facility turns from the concrete follow-up
state, for two different facility-signalling option texts. -/
theorem C10_witness :
    (locationRequestStart followUpState 6).messages.length = followUpState.messages.length + 2 ∧
    (locationRequestStart followUpState 6).messages.take followUpState.messages.length =
      followUpState.messages ∧
    (locationRequestStart followUpState 6).messages[followUpState.messages.length]? =
      some (facilityUserMessage 6) ∧
    (facilityUserMessage 6).role = Role.user ∧
    (facilityUserMessage 6).text = "Yes, help me find a facility." ∧
    (locationRequestStart followUpState 6).messages[followUpState.messages.length + 1]? =
      some (locatingMessage 6) ∧
    (locatingMessage 6).role = Role.bot ∧
    (locatingMessage 6).text = "Got it. Finding your location..." ∧
    handleOptionClick followUpState "Help me find a facility." true (GeoOutcome.position "10" "20")
        (Outcome.success "adv") 6 =
      handleOptionClick followUpState "Please FIND A FACILITY for me" true (GeoOutcome.position "10" "20")
        (Outcome.success "adv") 6 :=
  C10_facility_fixed_messages followUpState 6 "Help me find a facility."
    "Please FIND A FACILITY for me" true (GeoOutcome.position "10" "20") (Outcome.success "adv")
    (by decide) (by decide)

/-- A successful bold scan decomposes its input as content plus closing
delimiter. -/
theorem boldScan_append : ∀ (l cont r : List Char),
    boldScan l = some (cont, r) → cont ++ '*' :: '*' :: r = l := by
  intro l
  induction l with
  | nil => intro cont r h; exact Option.noConfusion h
  | cons c rest ih =>
    intro cont r h
    unfold boldScan at h
    split at h
    · rename_i rest1 heq
      injection h with h'
      injection h' with h1 h2
      subst h1
      subst h2
      exact heq.symm
    · rename_i c1 rest1 hne heq
      injection heq with e1 e2
      subst e1
      subst e2
      split at h
      · cases hm : boldScan rest with
        | none => rw [hm] at h; exact Option.noConfusion h
        | some p =>
          rw [hm] at h
          obtain ⟨cont1, r1⟩ := p
          injection h with h'
          injection h' with h1 h2
          subst h1
          subst h2
          simpa using ih cont1 r1 hm
      · exact Option.noConfusion h
    · exact Option.noConfusion h

/-- A successful display scan decomposes its input, the captured display
contains no earlier stop sequence, and all its characters are
non-line-terminators. -/
theorem linkScanDisplay_spec : ∀ (l d r : List Char),
    linkScanDisplay l = some (d, r) →
    d ++ ']' :: '(' :: r = l ∧ (∀ d1 d2, d = d1 ++ ']' :: '(' :: d2 → False) ∧
      ∀ c ∈ d, isDotCh c = true := by
  intro l
  induction l with
  | nil => intro d r h; exact Option.noConfusion h
  | cons c rest ih =>
    intro d r h
    unfold linkScanDisplay at h
    split at h
    · rename_i rest1 heq
      injection h with h'
      injection h' with h1 h2
      subst h1
      subst h2
      refine ⟨heq.symm, ?_, by simp⟩
      intro d1 d2 hd
      cases d1 <;> exact absurd hd (by simp)
    · rename_i c1 rest1 hne heq
      injection heq with e1 e2
      subst e1
      subst e2
      split at h
      · rename_i hdot
        cases hm : linkScanDisplay rest with
        | none => rw [hm] at h; exact Option.noConfusion h
        | some p =>
          rw [hm] at h
          obtain ⟨d1, r1⟩ := p
          injection h with h'
          injection h' with h1 h2
          subst h1
          subst h2
          obtain ⟨ha, hstop, hdots⟩ := ih d1 r1 hm
          refine ⟨by rw [List.cons_append, ha], ?_, ?_⟩
          · intro e1 e2 hd
            cases e1 with
            | nil =>
              -- c :: d1 = ']' :: '(' :: e2 : the stop arm would have fired
              injection hd with f1 f2
              subst f1
              apply hne (e2 ++ ']' :: '(' :: r1) rfl
              rw [← ha, show d1 = '(' :: e2 from f2]
              simp
            | cons x e1' =>
              injection hd with f1 f2
              exact hstop e1' e2 f2
          · intro x hx
            rcases List.mem_cons.mp hx with h1 | h1
            · subst h1; exact hdot
            · exact hdots x h1
      · exact Option.noConfusion h
    · exact Option.noConfusion h

/-- A successful href scan decomposes its input, the captured href contains
no closing parenthesis, and all its characters are non-line-terminators. -/
theorem linkScanHref_spec : ∀ (l h r : List Char),
    linkScanHref l = some (h, r) →
    h ++ ')' :: r = l ∧ ')' ∉ h ∧ ∀ c ∈ h, isDotCh c = true := by
  intro l
  induction l with
  | nil => intro h r hh; exact Option.noConfusion hh
  | cons c rest ih =>
    intro h r hh
    unfold linkScanHref at hh
    split at hh
    · rename_i rest1 heq
      injection hh with h'
      injection h' with h1 h2
      subst h1
      subst h2
      refine ⟨heq.symm, by simp, by simp⟩
    · rename_i c1 rest1 hne heq
      injection heq with e1 e2
      subst e1
      subst e2
      split at hh
      · rename_i hdot
        cases hm : linkScanHref rest with
        | none => rw [hm] at hh; exact Option.noConfusion hh
        | some p =>
          rw [hm] at hh
          obtain ⟨h1, r1⟩ := p
          injection hh with hh'
          injection hh' with g1 g2
          subst g1
          subst g2
          obtain ⟨ha, hnp, hdots⟩ := ih h1 r1 hm
          refine ⟨by rw [List.cons_append, ha], ?_, ?_⟩
          · intro hmem
            rcases List.mem_cons.mp hmem with hx | hx
            · exact hne hx.symm
            · exact hnp hx
          · intro x hx
            rcases List.mem_cons.mp hx with hx1 | hx1
            · subst hx1; exact hdot
            · exact hdots x hx1
      · exact Option.noConfusion hh
    · exact Option.noConfusion hh

/-- Conversely, a clean display followed by the stop sequence is scanned
exactly. -/
theorem linkScanDisplay_complete : ∀ (d t : List Char),
    (∀ d1 d2, d = d1 ++ ']' :: '(' :: d2 → False) → (∀ c ∈ d, isDotCh c = true) →
    linkScanDisplay (d ++ ']' :: '(' :: t) = some (d, t) := by
  intro d
  induction d with
  | nil => intro t _ _; rfl
  | cons c d' ih =>
    intro t hstop hdot
    rw [List.cons_append]
    unfold linkScanDisplay
    split
    · rename_i rest1 heq
      exfalso
      injection heq with e1 e2
      subst e1
      cases d' with
      | nil =>
        injection e2 with e3 e4
        exact absurd e3 (by decide)
      | cons x d'' =>
        rw [List.cons_append] at e2
        injection e2 with e3 e4
        subst e3
        exact hstop [] d'' rfl
    · rename_i c1 rest1 hne heq
      injection heq with e1 e2
      subst e1
      rw [if_pos (hdot c (by simp))]
      rw [← e2, ih t (fun d1 d2 hd => hstop (c :: d1) d2 (by rw [hd, List.cons_append]))
        (fun x hx => hdot x (by simp [hx]))]
      rfl
    · rename_i heq
      exact absurd heq (by simp)

/-- Conversely, a clean href followed by the closing parenthesis is scanned
exactly. -/
theorem linkScanHref_complete : ∀ (h t : List Char),
    ')' ∉ h → (∀ c ∈ h, isDotCh c = true) →
    linkScanHref (h ++ ')' :: t) = some (h, t) := by
  intro h
  induction h with
  | nil => intro t _ _; rfl
  | cons c h' ih =>
    intro t hnp hdot
    rw [List.cons_append]
    unfold linkScanHref
    split
    · rename_i rest1 heq
      exfalso
      injection heq with e1 e2
      exact hnp (by simp [e1])
    · rename_i c1 rest1 hne heq
      injection heq with e1 e2
      subst e1
      rw [if_pos (hdot c (by simp))]
      rw [← e2, ih t (fun hm => hnp (by simp [hm])) (fun x hx => hdot x (by simp [hx]))]
      rfl
    · rename_i heq
      exact absurd heq (by simp)

/-- Display scanning is stable under extending the input. -/
theorem linkScanDisplay_mono (l d r t : List Char) (h : linkScanDisplay l = some (d, r)) :
    linkScanDisplay (l ++ t) = some (d, r ++ t) := by
  obtain ⟨ha, hstop, hdot⟩ := linkScanDisplay_spec l d r h
  rw [← ha, List.append_assoc, List.cons_append, List.cons_append]
  exact linkScanDisplay_complete d (r ++ t) hstop hdot

/-- Href scanning is stable under extending the input. -/
theorem linkScanHref_mono (l h r t : List Char) (hh : linkScanHref l = some (h, r)) :
    linkScanHref (l ++ t) = some (h, r ++ t) := by
  obtain ⟨ha, hnp, hdot⟩ := linkScanHref_spec l h r hh
  rw [← ha, List.append_assoc, List.cons_append]
  exact linkScanHref_complete h (r ++ t) hnp hdot

/-- Inversion of an anchored link match into its two scans. -/
theorem matchLinkAt_inv (l : List Char) (d h r : List Char)
    (hm : matchLinkAt l = some (d, h, r)) :
    ∃ l', l = '[' :: l' ∧ linkScanDisplay l' = some (d, h ++ ')' :: r) ∧
      ∃ r1, linkScanDisplay l' = some (d, r1) ∧ linkScanHref r1 = some (h, r) := by
  unfold matchLinkAt at hm
  split at hm
  · rename_i l' 
    cases hd : linkScanDisplay l' with
    | none => rw [hd] at hm; exact Option.noConfusion hm
    | some p =>
      rw [hd] at hm
      obtain ⟨d1, r1⟩ := p
      dsimp only [] at hm
      cases hh : linkScanHref r1 with
      | none => rw [hh] at hm; exact Option.noConfusion hm
      | some q =>
        rw [hh] at hm
        obtain ⟨h1, r2⟩ := q
        dsimp only [] at hm
        injection hm with hm'
        cases hm'
        refine ⟨l', rfl, ?_, r1, hd, hh⟩
        obtain ⟨hb, _, _⟩ := linkScanHref_spec r1 h r hh
        rw [← hb] at hd
        exact hd
  · exact Option.noConfusion hm

/-- An anchored link match is stable under extending the input: a link
found in a truncated suffix would also be found in the full text. -/
theorem matchLinkAt_mono (l d h r t : List Char) (hm : matchLinkAt l = some (d, h, r)) :
    matchLinkAt (l ++ t) = some (d, h, r ++ t) := by
  obtain ⟨l', he, _, r1, hd, hh⟩ := matchLinkAt_inv l d h r hm
  subst he
  rw [List.cons_append]
  unfold matchLinkAt
  split
  · rename_i rest heq
    injection heq with e1 e2
    subst e2
    rw [linkScanDisplay_mono l' d r1 t hd]
    dsimp only []
    rw [linkScanHref_mono r1 h r t hh]
  · rename_i hne
    exact absurd (hne (l' ++ t) rfl) not_false

/-- When the alternation fails, both alternatives fail. -/
theorem trySepFmt_none_parts (cs : List Char) (h : trySepFmt cs = none) :
    matchBoldAt cs = none ∧ matchLinkAt cs = none := by
  unfold trySepFmt at h
  cases hb : matchBoldAt cs with
  | some p => rw [hb] at h; exact Option.noConfusion h
  | none =>
    rw [hb] at h
    cases hl : matchLinkAt cs with
    | some q =>
      rw [hl] at h
      obtain ⟨d, h1, r⟩ := q
      exact Option.noConfusion h
    | none => exact ⟨rfl, rfl⟩

/-- Inversion of an anchored bold match. -/
theorem matchBoldAt_inv (cs sep rest : List Char) (h : matchBoldAt cs = some (sep, rest)) :
    ∃ cont, cs = '*' :: '*' :: (cont ++ '*' :: '*' :: rest) ∧
      sep = '*' :: '*' :: (cont ++ ['*', '*']) := by
  unfold matchBoldAt at h
  split at h
  · rename_i rest0
    cases hb : boldScan rest0 with
    | none => rw [hb] at h; exact Option.noConfusion h
    | some p =>
      rw [hb] at h
      obtain ⟨cont, r⟩ := p
      dsimp only [] at h
      injection h with h'
      injection h' with g1 g2
      subst g2
      refine ⟨cont, ?_, g1.symm⟩
      rw [← boldScan_append rest0 cont r hb]
  · exact Option.noConfusion h

/-- A matched separator is a non-empty prefix of the input. -/
theorem trySepFmt_append (cs sep rest : List Char) (h : trySepFmt cs = some (sep, rest)) :
    sep ++ rest = cs ∧ sep ≠ [] := by
  unfold trySepFmt at h
  cases hb : matchBoldAt cs with
  | some p =>
    rw [hb] at h
    dsimp only [] at h
    injection h with h'
    obtain ⟨cont, hcs, hsep⟩ := matchBoldAt_inv cs sep rest (by rw [hb, h'])
    constructor
    · rw [hcs, hsep]
      simp
    · rw [hsep]
      simp
  | none =>
    rw [hb] at h
    cases hl : matchLinkAt cs with
    | none => rw [hl] at h; exact Option.noConfusion h
    | some q =>
      rw [hl] at h
      obtain ⟨d, h1, r⟩ := q
      dsimp only [] at h
      injection h with h'
      injection h' with g1 g2
      subst g1
      subst g2
      obtain ⟨l', he, hfull, r1, hd, hh⟩ := matchLinkAt_inv cs d h1 r hl
      obtain ⟨ha, _, _⟩ := linkScanDisplay_spec l' d (h1 ++ ')' :: r) hfull
      constructor
      · rw [he, ← ha]
        simp
      · simp

/-- The split is lossless: concatenating all parts (pieces and separators)
restores the input, whatever the fuel. -/
theorem splitFmtLoop_flatten : ∀ (fuel : Nat) (acc cs : List Char),
    (splitFmtLoop fuel acc cs).flatten = acc.reverse ++ cs := by
  intro fuel
  induction fuel with
  | zero => intro acc cs; simp [splitFmtLoop]
  | succ fuel ih =>
    intro acc cs
    cases cs with
    | nil => simp [splitFmtLoop]
    | cons c cs' =>
      unfold splitFmtLoop
      cases ht : trySepFmt (c :: cs') with
      | none =>
        dsimp only []
        rw [ih (c :: acc) cs']
        simp
      | some p =>
        obtain ⟨sep, rest⟩ := p
        dsimp only []
        rw [List.flatten_cons, List.flatten_cons, ih [] rest]
        obtain ⟨ha, _⟩ := trySepFmt_append (c :: cs') sep rest ht
        rw [List.reverse_nil, List.nil_append, ha]

/-- A verified prefix can be split off. -/
theorem listStartsWith_ex : ∀ (n l : List Char), listStartsWith n l = true → ∃ t, l = n ++ t := by
  intro n
  induction n with
  | nil => intro l _; exact ⟨l, rfl⟩
  | cons c n' ih =>
    intro l h
    cases l with
    | nil => exact Bool.noConfusion h
    | cons x l' =>
      unfold listStartsWith at h
      dsimp only [] at h
      by_cases hx : x = c
      · rw [if_pos hx] at h
        obtain ⟨t, ht⟩ := ih l' h
        exact ⟨t, by rw [hx, ht]; rfl⟩
      · rw [if_neg hx] at h
        exact Bool.noConfusion h

/-- A part that starts and ends with `**` and has length at least 4
decomposes into delimiters around a middle. -/
theorem bold_decomp (p : List Char) (hs : startsWithStars p = true) (he : endsWithStars p = true)
    (hl : 4 ≤ p.length) : ∃ u, p = '*' :: '*' :: (u ++ ['*', '*']) := by
  obtain ⟨q, hq⟩ := listStartsWith_ex _ _ hs
  obtain ⟨w, hw⟩ := listStartsWith_ex _ _ he
  have hp2 : p = w.reverse ++ ['*', '*'] := by
    have h3 := congrArg List.reverse hw
    simpa using h3
  cases hrv : w.reverse with
  | nil =>
    rw [hp2, hrv] at hl
    simp at hl
  | cons x ys =>
    cases ys with
    | nil =>
      rw [hp2, hrv] at hl
      simp at hl
    | cons y u =>
      rw [hp2, hrv]
      rw [hq] at hp2
      rw [hrv] at hp2
      have e1 : '*' = x := by
        have := congrArg (fun l => l.headI) hp2
        simpa using this
      have e3 : '*' = y := by
        have := congrArg (fun l => l.tail.headI) hp2
        simpa using this
      rw [← e1, ← e3]
      exact ⟨u, rfl⟩

/-- A bold-classified part of length at least 4 renders back to itself. -/
theorem render_bold_shaped (p : List Char) (hs : startsWithStars p = true)
    (he : endsWithStars p = true) (hl : 4 ≤ p.length) :
    runRender (classifyPart p) = p.asString := by
  obtain ⟨u, hu⟩ := bold_decomp p hs he hl
  unfold classifyPart
  rw [if_pos (by rw [hs, he]; rfl)]
  have hslice : sliceBold p = u := by
    rw [hu]
    unfold sliceBold
    simp
  unfold runRender
  rw [hslice, hu]
  rfl

/-- A piece all of whose non-empty suffixes fail the alternation (in their
original context) contains no link match: by monotonicity, a link found in
the truncated piece would have been found during the split. -/
theorem searchLink_none (p ctx : List Char)
    (hinv : ∀ a b, p = a ++ b → b ≠ [] → trySepFmt (b ++ ctx) = none) :
    searchLink p = none := by
  induction p with
  | nil => rfl
  | cons c p' ih =>
    unfold searchLink
    cases hm : matchLinkAt (c :: p') with
    | some q =>
      exfalso
      obtain ⟨d, h1, r⟩ := q
      have hmono := matchLinkAt_mono (c :: p') d h1 r ctx hm
      have hnone := hinv [] (c :: p') rfl (by simp)
      obtain ⟨_, hlnone⟩ := trySepFmt_none_parts ((c :: p') ++ ctx) hnone
      rw [hmono] at hlnone
      exact Option.noConfusion hlnone
    | none =>
      exact ih (fun a b hab hbne => hinv (c :: a) b (by rw [hab, List.cons_append]) hbne)

/-- A non-separator piece renders back to itself, provided a degenerate
bold shape (length < 4) is excluded. -/
theorem render_piece (p ctx : List Char)
    (hinv : ∀ a b, p = a ++ b → b ≠ [] → trySepFmt (b ++ ctx) = none)
    (hlen : (startsWithStars p && endsWithStars p) = true → 4 ≤ p.length) :
    runRender (classifyPart p) = p.asString := by
  cases hb : (startsWithStars p && endsWithStars p) with
  | true =>
    rw [Bool.and_eq_true] at hb
    exact render_bold_shaped p hb.1 hb.2 (hlen (by rw [hb.1, hb.2]; rfl))
  | false =>
    unfold classifyPart
    rw [if_neg (by simp [hb])]
    rw [searchLink_none p ctx hinv]
    rfl

/-- Re-attaching the link delimiters at the string level. -/
theorem link_render_string (d h1 : List Char) :
    "[" ++ d.asString ++ "](" ++ h1.asString ++ ")" =
      ('[' :: (d ++ ']' :: '(' :: (h1 ++ [')']))).asString := by
  have e : ((((['['] ++ d) ++ [']', '(']) ++ h1) ++ [')']) =
      '[' :: (d ++ ']' :: '(' :: (h1 ++ [')'])) := by simp
  calc "[" ++ d.asString ++ "](" ++ h1.asString ++ ")"
      = ((((['['] ++ d) ++ [']', '(']) ++ h1) ++ [')']).asString := rfl
    _ = _ := by rw [e]

/-- A matched separator part renders back to itself. -/
theorem render_sep (cs sep rest : List Char) (h : trySepFmt cs = some (sep, rest)) :
    runRender (classifyPart sep) = sep.asString := by
  unfold trySepFmt at h
  cases hb : matchBoldAt cs with
  | some p =>
    rw [hb] at h
    dsimp only [] at h
    injection h with h'
    obtain ⟨cont, hcs, hsep⟩ := matchBoldAt_inv cs sep rest (by rw [hb, h'])
    apply render_bold_shaped
    · rw [hsep]
      rfl
    · rw [hsep]
      unfold endsWithStars
      have hr : ('*' :: '*' :: (cont ++ ['*', '*'])).reverse =
          '*' :: '*' :: (cont.reverse ++ ['*', '*']) := by simp
      rw [hr]
      simp [listStartsWith]
    · rw [hsep]
      simp
  | none =>
    rw [hb] at h
    cases hl : matchLinkAt cs with
    | none => rw [hl] at h; exact Option.noConfusion h
    | some q =>
      rw [hl] at h
      obtain ⟨d, h1, r⟩ := q
      dsimp only [] at h
      injection h with h'
      injection h' with g1 g2
      obtain ⟨l', he, hfull, r1, hd, hh⟩ := matchLinkAt_inv cs d h1 r hl
      obtain ⟨_, hstop, hdots⟩ := linkScanDisplay_spec l' d r1 hd
      obtain ⟨hrb, hnp, hdots2⟩ := linkScanHref_spec r1 h1 r hh
      rw [← g1]
      unfold classifyPart
      rw [if_neg (by simp [startsWithStars, listStartsWith])]
      have hml : matchLinkAt ('[' :: (d ++ ']' :: '(' :: (h1 ++ [')']))) = some (d, h1, []) := by
        have hdisp : linkScanDisplay (d ++ ']' :: '(' :: (h1 ++ [')'])) =
            some (d, h1 ++ [')']) := linkScanDisplay_complete d (h1 ++ [')']) hstop hdots
        have hhref : linkScanHref (h1 ++ [')']) = some (h1, []) := by
          have := linkScanHref_complete h1 [] hnp hdots2
          simpa using this
        show (match linkScanDisplay (d ++ ']' :: '(' :: (h1 ++ [')'])) with
          | some (d2, r2) =>
            match linkScanHref r2 with
            | some (h2, r3) => some (d2, h2, r3)
            | none => none
          | none => none) = some (d, h1, [])
        rw [hdisp]
        dsimp only []
        rw [hhref]
      have hsl : searchLink ('[' :: (d ++ ']' :: '(' :: (h1 ++ [')']))) = some (d, h1) := by
        show (match matchLinkAt ('[' :: (d ++ ']' :: '(' :: (h1 ++ [')']))) with
          | some (d2, h2, _) => some (d2, h2)
          | none => searchLink (d ++ ']' :: '(' :: (h1 ++ [')']))) = some (d, h1)
        rw [hml]
      rw [hsl]
      unfold runRender
      exact link_render_string d h1

/-- A non-empty suffix of `l ++ [c]` is a suffix of `l` extended by `c`. -/
theorem snoc_suffix_decomp (l b : List Char) (c : Char) (a : List Char)
    (h : l ++ [c] = a ++ b) (hb : b ≠ []) :
    ∃ b', b = b' ++ [c] ∧ l = a ++ b' := by
  cases hrb : b.reverse with
  | nil =>
    exfalso
    apply hb
    have h2 := congrArg List.reverse hrb
    simpa using h2
  | cons x br =>
    have hbeq : b = br.reverse ++ [x] := by
      have h2 := congrArg List.reverse hrb
      simpa using h2
    rw [hbeq, ← List.append_assoc] at h
    obtain ⟨h1, h2⟩ := List.append_inj' h rfl
    injection h2 with e1 _
    subst e1
    exact ⟨br.reverse, hbeq, h1⟩

/-- If every part renders to itself, the reconstruction is the
concatenation of the parts. -/
theorem reconstruct_map (parts : List (List Char))
    (h : ∀ p ∈ parts, runRender (classifyPart p) = p.asString) :
    reconstruct (parts.map classifyPart) = parts.flatten.asString := by
  induction parts with
  | nil => rfl
  | cons p ps ih =>
    unfold reconstruct
    rw [List.map_cons, List.foldr_cons]
    have hps := ih (fun q hq => h q (List.mem_cons_of_mem p hq))
    unfold reconstruct at hps
    rw [hps, h p (List.mem_cons_self p ps), List.flatten_cons]
    rfl

/-- Main invariant of the split loop: with enough fuel, an accumulator
none of whose non-empty suffixes matches the alternation in context, and no
degenerate bold-shaped part in the output, every produced part renders back
to itself. -/
theorem splitFmtLoop_partOK : ∀ (fuel : Nat) (acc cs : List Char),
    cs.length < fuel →
    (∀ a b, acc.reverse = a ++ b → b ≠ [] → trySepFmt (b ++ cs) = none) →
    (∀ p ∈ splitFmtLoop fuel acc cs, (startsWithStars p && endsWithStars p) = true → 4 ≤ p.length) →
    ∀ p ∈ splitFmtLoop fuel acc cs, runRender (classifyPart p) = p.asString := by
  intro fuel
  induction fuel with
  | zero =>
    intro acc cs hf
    exact absurd hf (Nat.not_lt_zero _)
  | succ fuel ih =>
    intro acc cs hf hacc hlen
    cases cs with
    | nil =>
      intro p hp
      have hp' : p = acc.reverse := by simpa [splitFmtLoop] using hp
      subst hp'
      apply render_piece acc.reverse []
      · intro a b hab hbne
        simpa using hacc a b hab hbne
      · intro hbshape
        exact hlen _ (by simp [splitFmtLoop]) hbshape
    | cons c cs' =>
      intro p hp
      cases ht : trySepFmt (c :: cs') with
      | none =>
        have hloop : splitFmtLoop (fuel + 1) acc (c :: cs') = splitFmtLoop fuel (c :: acc) cs' := by
          conv_lhs => unfold splitFmtLoop
          rw [ht]
        rw [hloop] at hp
        refine ih (c :: acc) cs' (by simpa using Nat.lt_of_succ_lt_succ hf) ?_ ?_ p hp
        · intro a b hab hbne
          have hab2 : acc.reverse ++ [c] = a ++ b := by
            rw [← hab]
            simp
          obtain ⟨b', hb', ha'⟩ := snoc_suffix_decomp acc.reverse b c a hab2 hbne
          rw [hb']
          by_cases hbe : b' = []
          · subst hbe
            simpa using ht
          · have h3 := hacc a b' ha' hbe
            simpa using h3
        · intro q hq hshape
          apply hlen q ?_ hshape
          rw [hloop]
          exact hq
      | some pr =>
        obtain ⟨sep, rest⟩ := pr
        have hloop : splitFmtLoop (fuel + 1) acc (c :: cs') =
            acc.reverse :: sep :: splitFmtLoop fuel [] rest := by
          conv_lhs => unfold splitFmtLoop
          rw [ht]
        rw [hloop] at hp
        rcases List.mem_cons.mp hp with hp1 | hp2
        · subst hp1
          apply render_piece acc.reverse (c :: cs')
          · exact fun a b hab hbne => hacc a b hab hbne
          · intro hsh
            apply hlen _ ?_ hsh
            rw [hloop]
            exact List.mem_cons_self _ _
        · rcases List.mem_cons.mp hp2 with hp3 | hp4
          · subst hp3
            exact render_sep (c :: cs') p rest ht
          · obtain ⟨hsr, hsne⟩ := trySepFmt_append (c :: cs') sep rest ht
            have hrl : rest.length < fuel := by
              have hlen2 : sep.length + rest.length = cs'.length + 1 := by
                have h4 := congrArg List.length hsr
                simpa using h4
              have hsep1 : 1 ≤ sep.length := by
                cases hsepc : sep with
                | nil => exact absurd hsepc hsne
                | cons _ _ => simp
              have hf2 : cs'.length + 1 < fuel + 1 := by simpa using hf
              omega
            refine ih [] rest hrl ?_ ?_ p hp4
            · intro a b hab hbne
              exfalso
              apply hbne
              have : a ++ b = [] := by simpa using hab.symm
              exact (List.append_eq_nil.mp this).2
            · intro q hq hsh
              apply hlen q ?_ hsh
              rw [hloop]
              exact List.mem_cons_of_mem _ (List.mem_cons_of_mem _ hq)

/-- Without any alternation match the split returns the input whole. -/
theorem splitFmtLoop_noMarkup : ∀ (fuel : Nat) (acc cs : List Char), noMarkup cs = true →
    splitFmtLoop fuel acc cs = [acc.reverse ++ cs] := by
  intro fuel
  induction fuel with
  | zero => intro acc cs _; rfl
  | succ fuel ih =>
    intro acc cs h
    cases cs with
    | nil => simp [splitFmtLoop]
    | cons c cs' =>
      unfold noMarkup at h
      rw [Bool.and_eq_true] at h
      obtain ⟨h1, h2⟩ := h
      unfold splitFmtLoop
      rw [Option.isNone_iff_eq_none.mp h1]
      rw [ih (c :: acc) cs' h2]
      simp

/-- Without any alternation match there is no link match either. -/
theorem searchLink_none_of_noMarkup : ∀ (cs : List Char), noMarkup cs = true →
    searchLink cs = none := by
  intro cs
  induction cs with
  | nil => intro _; rfl
  | cons c cs' ih =>
    intro h
    unfold noMarkup at h
    rw [Bool.and_eq_true] at h
    obtain ⟨h1, h2⟩ := h
    unfold searchLink
    obtain ⟨_, hl⟩ := trySepFmt_none_parts (c :: cs') (Option.isNone_iff_eq_none.mp h1)
    rw [hl]
    exact ih h2

/-- A part that is neither bold-shaped nor contains a link stays plain. -/
theorem classifyPart_plain (p : List Char)
    (hb : (startsWithStars p && endsWithStars p) = false)
    (hs : searchLink p = none) : classifyPart p = Run.plain p.asString := by
  unfold classifyPart
  rw [if_neg (by simp [hb]), hs]

/-- C4, counterexample: the input `**` contains no match of either
tokenization pattern, yet `formatInline` returns a single *bold* run with
empty content — not a single plain run equal to the input — and
reconstructing the runs yields `****`, which differs from the input, so the
unconditional round-trip fails. -/
theorem C4_counterexample :
    noMarkup "**".toList = true ∧
    formatInline "**" = [Run.bold ""] ∧
    reconstruct (formatInline "**") = "****" ∧ ("****" : String) ≠ "**" :=
  ⟨rfl, rfl, rfl, by decide⟩

/-- C4, amended: `formatInline` is a pure function such that (i) for every
input with no match of the bold or link pattern that does not itself both
start and end with `**`, it returns a single plain run equal to the input;
and (ii) for every input in which no split part that both starts and ends
with `**` is shorter than 4 characters, concatenating the textual content
of all returned runs with their delimiter markers restored reproduces the
input exactly, in original order with no text loss. -/
theorem C4_amended (text : String) :
    ((noMarkup text.toList = true ∧
        (startsWithStars text.toList && endsWithStars text.toList) = false) →
      formatInline text = [Run.plain text]) ∧
    ((∀ p ∈ splitFmt text.toList, (startsWithStars p && endsWithStars p) = true → 4 ≤ p.length) →
      reconstruct (formatInline text) = text) := by
  constructor
  · rintro ⟨hnm, hbold⟩
    unfold formatInline splitFmt
    rw [splitFmtLoop_noMarkup _ _ _ hnm]
    rw [List.map_cons, List.map_nil, List.reverse_nil, List.nil_append]
    rw [classifyPart_plain _ hbold (searchLink_none_of_noMarkup _ (by simpa using hnm))]
    rfl
  · intro hlen
    unfold formatInline
    have hparts := splitFmtLoop_partOK (text.toList.length + 1) [] text.toList
      (by omega)
      (by
        intro a b hab hbne
        exfalso
        apply hbne
        have h2 : a ++ b = [] := by simpa using hab.symm
        exact (List.append_eq_nil.mp h2).2)
      hlen
    unfold splitFmt
    rw [reconstruct_map _ hparts]
    rw [splitFmtLoop_flatten]
    rfl

/-- Witness for C4: both amended statements at concrete inputs. -/
theorem C4_amended_witness :
    formatInline "no markup here" = [Run.plain "no markup here"] ∧
    reconstruct (formatInline "see **bold** and [a](b) now") = "see **bold** and [a](b) now" :=
  ⟨(C4_amended "no markup here").1 (by decide),
   (C4_amended "see **bold** and [a](b) now").2 (by decide)⟩
